import Mathlib

/-!
Verification of the notification scheduling engine of crewtaskbot (src/bot.py).

The overdue reminder loop (bot.py lines 314-368) scans the task table for rows
with completed = 0 and a non-NULL due_date, parses the due date, and for each
row that is strictly past due sends a DM when at least 20 seconds have elapsed
since last_overdue_notified (stored as an integer, 0 meaning never notified).
On a successful send it updates last_overdue_notified to the tick's timestamp;
all per-row failures are caught and the loop continues.

Modelling choices:
- time is a single integer-second timeline (the code compares datetimes for the
  due check and unix-second integers for the cooldown check; both are collapsed
  to the same instant `now : Int`);
- the textual due_date column together with its strptime parse outcome is
  abstracted to the three-way `DueDate` (NULL / unparseable / parsed instant);
- the Discord side (fetch_user + user.send) is an oracle `send : Nat -> SendOutcome`
  keyed by task id for one tick: `delivered` is a successful DM, `forbidden` is
  discord.Forbidden (recipient unreachable), `otherError` is any other exception
  (transient failure);
- the sqlite UPDATE (and its commit) may itself raise; whether it applies is the
  oracle `ok : Nat -> Bool` (the code swallows this exception with `pass`).
-/

namespace CrewTaskBot

/-- Outcome of one DM dispatch attempt (lines 352-368): success, a
discord.Forbidden (recipient-side, unreachable), or any other exception
(transient infrastructure failure). -/
inductive SendOutcome
  | delivered
  | forbidden
  | otherError
deriving DecidableEq

/-- The due_date column at the store boundary combined with its parse outcome
(lines 333-340): NULL, a string strptime rejects, or a parsed instant. -/
inductive DueDate
  | dnull
  | malformed
  | parsed (d : Int)
deriving DecidableEq

/-- One row of the tasks table, restricted to the columns the reminder loops
read: id, user_id, due_date, completed, last_overdue_notified.  The column
last_overdue_notified defaults to 0 ("never notified"); `none` models the
absent/NULL reading which the code also collapses to 0. -/
structure Task where
  id : Nat
  userId : Nat
  due : DueDate
  completed : Bool
  lastNotified : Option Int
deriving DecidableEq

/-- Line 345: `last_ts = int(last_notified) if last_notified else 0` — an
absent (or zero) last-notified value reads as the sentinel 0. -/
def lastTs : Option Int → Int
  | none => 0
  | some v => v

/-- The process-wide cooldown window: 20 seconds (line 350). -/
def cooldown : Int := 20

/-- The cooldown policy as the code implements it (lines 327-350): a row is
eligible when it is incomplete, its due date is present and parseable, the due
instant is strictly before `now`, and at least `cd` seconds have elapsed since
the (0-defaulted) last notification timestamp. -/
def isEligible (dueAt : DueDate) (completed : Bool) (lastNotifiedAt : Option Int)
    (now cd : Int) : Bool :=
  match dueAt with
  | .dnull => false
  | .malformed => false
  | .parsed d => !completed && decide (d < now) && decide (cd ≤ now - lastTs lastNotifiedAt)

/-- The single-row effect of the SQL UPDATE: stamp `lastNotified` when the id
matches, leave the row alone otherwise. -/
def stampOne (ts : Int) (i : Nat) (t : Task) : Task :=
  if t.id = i then { t with lastNotified := some ts } else t

/-- Line 360: `UPDATE tasks SET last_overdue_notified = ? WHERE id = ?` — the
update is keyed on id only; it does not re-check `completed`. -/
def markNotified (store : List Task) (i : Nat) (ts : Int) : List Task :=
  store.map (stampOne ts i)

/-- Whether the due_date column is non-NULL (it may still be unparseable). -/
def hasDueField : DueDate → Bool
  | .dnull => false
  | .malformed => true
  | .parsed _ => true

/-- Lines 327-329: `SELECT ... FROM tasks WHERE completed = 0 AND due_date IS
NOT NULL` — the snapshot of candidate rows taken at the start of a pass. -/
def queryCandidates (store : List Task) : List Task :=
  store.filter fun t => !t.completed && hasDueField t.due

/-- Row-level eligibility inside the overdue loop: the query already fixed
completed = 0, so the in-loop checks are the policy at `completed := false`. -/
def eligibleRow (now : Int) (r : Task) : Bool :=
  isEligible r.due false r.lastNotified now cooldown

/-- One iteration of the overdue loop body (lines 332-368) over row `r`:
skip unparseable due dates, skip rows not strictly past due or still inside the
cooldown, otherwise attempt the DM; only a delivered DM whose follow-up UPDATE
does not raise stamps the store.  The second component records the dispatch
attempt as (taskId, userId, outcome). -/
def processRow (send : Nat → SendOutcome) (ok : Nat → Bool) (now : Int)
    (store : List Task) (r : Task) : List Task × Option (Nat × Nat × SendOutcome) :=
  match r.due with
  | .dnull => (store, none)
  | .malformed => (store, none)
  | .parsed d =>
    if d < now then
      if cooldown ≤ now - lastTs r.lastNotified then
        match send r.id with
        | .delivered =>
          ((if ok r.id then markNotified store r.id now else store),
            some (r.id, r.userId, .delivered))
        | .forbidden => (store, some (r.id, r.userId, .forbidden))
        | .otherError => (store, some (r.id, r.userId, .otherError))
      else (store, none)
    else (store, none)

/-- The loop over the snapshot `rows`, threading the store and collecting the
dispatch attempts in order. -/
def tickAux (send : Nat → SendOutcome) (ok : Nat → Bool) (now : Int) :
    List Task → List Task → List Task × List (Nat × Nat × SendOutcome)
  | store, [] => (store, [])
  | store, r :: rs =>
    let step := processRow send ok now store r
    let rest := tickAux send ok now step.1 rs
    (rest.1, step.2.toList ++ rest.2)

/-- One full pass of the overdue reminder loop (`overdue_reminder`, lines
314-368): query the candidate snapshot, then process each row in order.
Returns the final store and the list of dispatch attempts of the pass. -/
def overdueTick (send : Nat → SendOutcome) (ok : Nat → Bool) (now : Int)
    (store : List Task) : List Task × List (Nat × Nat × SendOutcome) :=
  tickAux send ok now store (queryCandidates store)

/-- Lookup of the row with a given id (ids are the PRIMARY KEY). -/
def findTask (store : List Task) (i : Nat) : Option Task :=
  store.find? fun t => t.id == i

/-- Line 300: `SELECT id, task, due_date FROM tasks WHERE user_id = ? AND
completed = 0` — the pending tasks of one user, due date or not. -/
def pendingTasksOf (store : List Task) (u : Nat) : List Task :=
  store.filter fun t => t.userId == u && !t.completed

/-- Line 296: `SELECT DISTINCT user_id FROM tasks WHERE completed = 0`. -/
def pendingUsers (store : List Task) : List Nat :=
  ((store.filter fun t => !t.completed).map fun t => t.userId).dedup

/-- One pass of the hourly reminder loop (`hourly_reminder`, lines 292-311):
for each distinct user with pending tasks, if the user object resolves
(`bot.get_user`) and the DM does not raise discord.Forbidden, one DM is sent
listing every pending task of that user — whether or not it has a due date.
The result is the list of task ids mentioned in successfully sent DMs. -/
def hourlyReminder (userKnown dmOk : Nat → Bool) (store : List Task) : List Nat :=
  (pendingUsers store).foldr
    (fun u acc =>
      let ts := pendingTasksOf store u
      if ts.isEmpty then acc
      else if userKnown u then
        (if dmOk u then ts.map (fun t => t.id) ++ acc else acc)
      else acc) []

/-- Whether processing row `r` ends in a stamped store: the row is eligible,
the DM is delivered, and the follow-up UPDATE does not raise. -/
def rowDelivers (send : Nat → SendOutcome) (ok : Nat → Bool) (now : Int) (r : Task) : Bool :=
  eligibleRow now r && (send r.id == SendOutcome.delivered) && ok r.id

/-- The dispatch attempt a row contributes to the pass, as a function of that
row alone: an eligible row is attempted exactly once, recording its outcome. -/
def attemptOf (send : Nat → SendOutcome) (now : Int) (r : Task) :
    Option (Nat × Nat × SendOutcome) :=
  if eligibleRow now r then some (r.id, r.userId, send r.id) else none

/-- The per-row store transformation accumulated over the snapshot: each row
that delivers stamps the matching id with the tick's timestamp. -/
def tickStamp (send : Nat → SendOutcome) (ok : Nat → Bool) (now : Int) :
    List Task → Task → Task
  | [], t => t
  | r :: rs, t =>
    tickStamp send ok now rs (if rowDelivers send ok now r then stampOne now r.id t else t)

lemma processRow_eq (send : Nat → SendOutcome) (ok : Nat → Bool) (now : Int)
    (store : List Task) (r : Task) :
    processRow send ok now store r =
      ((if rowDelivers send ok now r then markNotified store r.id now else store),
        attemptOf send now r) := by
  rcases r with ⟨i, u, due, c, l⟩
  cases due with
  | dnull => simp [processRow, attemptOf, rowDelivers, eligibleRow, isEligible]
  | malformed => simp [processRow, attemptOf, rowDelivers, eligibleRow, isEligible]
  | parsed d =>
    by_cases h1 : d < now
    · by_cases h2 : cooldown ≤ now - lastTs l
      · cases hs : send i <;>
          simp [processRow, attemptOf, rowDelivers, eligibleRow, isEligible, h1, h2, hs]
      · simp [processRow, attemptOf, rowDelivers, eligibleRow, isEligible, h1, h2]
    · simp [processRow, attemptOf, rowDelivers, eligibleRow, isEligible, h1]

lemma tickAux_snd (send : Nat → SendOutcome) (ok : Nat → Bool) (now : Int)
    (rows : List Task) : ∀ store : List Task,
    (tickAux send ok now store rows).2 = rows.filterMap (attemptOf send now) := by
  induction rows with
  | nil => intro store; rfl
  | cons r rs ih =>
    intro store
    show ((processRow send ok now store r).2.toList ++
        (tickAux send ok now (processRow send ok now store r).1 rs).2) = _
    rw [ih, processRow_eq]
    cases ha : attemptOf send now r <;> simp [List.filterMap_cons, ha]

lemma tickAux_fst (send : Nat → SendOutcome) (ok : Nat → Bool) (now : Int)
    (rows : List Task) : ∀ store : List Task,
    (tickAux send ok now store rows).1 = store.map (tickStamp send ok now rows) := by
  induction rows with
  | nil =>
    intro store
    show store = store.map (tickStamp send ok now [])
    exact (List.map_id'' (fun _ => rfl) store).symm
  | cons r rs ih =>
    intro store
    show (tickAux send ok now (processRow send ok now store r).1 rs).1 = _
    rw [ih, processRow_eq]
    by_cases hc : rowDelivers send ok now r = true
    · simp only [hc, if_true, markNotified, List.map_map]
      apply List.map_congr_left
      intro t _
      simp [Function.comp, tickStamp, hc]
    · simp only [hc, if_false]
      apply List.map_congr_left
      intro t _
      simp [tickStamp, hc]

lemma stampOne_fields (ts : Int) (i : Nat) (t : Task) :
    (stampOne ts i t).id = t.id ∧ (stampOne ts i t).userId = t.userId ∧
    (stampOne ts i t).due = t.due ∧ (stampOne ts i t).completed = t.completed := by
  unfold stampOne; split <;> exact ⟨rfl, rfl, rfl, rfl⟩

lemma tickStamp_fields (send : Nat → SendOutcome) (ok : Nat → Bool) (now : Int)
    (rows : List Task) : ∀ t : Task,
    (tickStamp send ok now rows t).id = t.id ∧
    (tickStamp send ok now rows t).userId = t.userId ∧
    (tickStamp send ok now rows t).due = t.due ∧
    (tickStamp send ok now rows t).completed = t.completed := by
  induction rows with
  | nil => intro t; exact ⟨rfl, rfl, rfl, rfl⟩
  | cons r rs ih =>
    intro t
    by_cases hc : rowDelivers send ok now r = true
    · have h := ih (stampOne now r.id t)
      have h0 := stampOne_fields now r.id t
      simp only [tickStamp, hc, if_true]
      exact ⟨h.1.trans h0.1, h.2.1.trans h0.2.1, h.2.2.1.trans h0.2.2.1,
        h.2.2.2.trans h0.2.2.2⟩
    · simp only [tickStamp]
      rw [if_neg hc]
      exact ih t

lemma rowDelivers_eq_true (send : Nat → SendOutcome) (ok : Nat → Bool) (now : Int)
    (r : Task) : rowDelivers send ok now r = true ↔
      eligibleRow now r = true ∧ send r.id = SendOutcome.delivered ∧ ok r.id = true := by
  unfold rowDelivers
  simp [Bool.and_eq_true, and_assoc]

lemma tickStamp_keep (send : Nat → SendOutcome) (ok : Nat → Bool) (now : Int)
    (rows : List Task) : ∀ t : Task,
    (send t.id ≠ SendOutcome.delivered ∨ ok t.id = false) →
    tickStamp send ok now rows t = t := by
  induction rows with
  | nil => intro t _; rfl
  | cons r rs ih =>
    intro t ht
    by_cases hc : rowDelivers send ok now r = true
    · by_cases hid : t.id = r.id
      · exfalso
        obtain ⟨-, hsend, hok⟩ := (rowDelivers_eq_true send ok now r).mp hc
        rcases ht with h | h
        · exact h (by rw [hid]; exact hsend)
        · rw [hid, hok] at h; cases h
      · simp only [tickStamp, hc, if_true]
        have hst : stampOne now r.id t = t := by unfold stampOne; rw [if_neg hid]
        rw [hst]
        exact ih t ht
    · simp only [tickStamp]
      rw [if_neg hc]
      exact ih t ht

lemma tickStamp_stays (send : Nat → SendOutcome) (ok : Nat → Bool) (now : Int)
    (rows : List Task) : ∀ t : Task,
    t.lastNotified = some now → (tickStamp send ok now rows t).lastNotified = some now := by
  induction rows with
  | nil => intro t h; exact h
  | cons r rs ih =>
    intro t h
    by_cases hc : rowDelivers send ok now r = true
    · simp only [tickStamp, hc, if_true]
      apply ih
      unfold stampOne
      split <;> simp [h]
    · simp only [tickStamp]
      rw [if_neg hc]
      exact ih t h

lemma tickStamp_stamps (send : Nat → SendOutcome) (ok : Nat → Bool) (now : Int)
    (rows : List Task) : ∀ t : Task,
    (∃ r ∈ rows, r.id = t.id ∧ rowDelivers send ok now r = true) →
    (tickStamp send ok now rows t).lastNotified = some now := by
  induction rows with
  | nil => rintro t ⟨r, hr, -, -⟩; cases hr
  | cons r rs ih =>
    rintro t ⟨r0, hr0, hid, hdel⟩
    rcases List.mem_cons.mp hr0 with rfl | hmem
    · simp only [tickStamp, hdel, if_true]
      apply tickStamp_stays
      unfold stampOne
      rw [if_pos hid.symm]
    · by_cases hc : rowDelivers send ok now r = true
      · simp only [tickStamp, hc, if_true]
        apply ih
        refine ⟨r0, hmem, ?_, hdel⟩
        rw [(stampOne_fields now r.id t).1]
        exact hid
      · simp only [tickStamp]
        rw [if_neg hc]
        exact ih t ⟨r0, hmem, hid, hdel⟩

lemma tickStamp_cases (send : Nat → SendOutcome) (ok : Nat → Bool) (now : Int)
    (rows : List Task) : ∀ t : Task,
    (tickStamp send ok now rows t).lastNotified = t.lastNotified ∨
    ((tickStamp send ok now rows t).lastNotified = some now ∧
      ∃ r ∈ rows, r.id = t.id ∧ rowDelivers send ok now r = true) := by
  induction rows with
  | nil => intro t; exact Or.inl rfl
  | cons r rs ih =>
    intro t
    by_cases hc : rowDelivers send ok now r = true
    · by_cases hid : t.id = r.id
      · exact Or.inr ⟨tickStamp_stamps send ok now (r :: rs) t
          ⟨r, List.mem_cons_self r rs, hid.symm, hc⟩,
          r, List.mem_cons_self r rs, hid.symm, hc⟩
      · simp only [tickStamp, hc, if_true]
        have hst : stampOne now r.id t = t := by unfold stampOne; rw [if_neg hid]
        rw [hst]
        rcases ih t with h | ⟨h1, r0, hm, hi, hd⟩
        · exact Or.inl h
        · exact Or.inr ⟨h1, r0, List.mem_cons_of_mem _ hm, hi, hd⟩
    · simp only [tickStamp]
      rw [if_neg hc]
      rcases ih t with h | ⟨h1, r0, hm, hi, hd⟩
      · exact Or.inl h
      · exact Or.inr ⟨h1, r0, List.mem_cons_of_mem _ hm, hi, hd⟩

lemma findTask_map (f : Task → Task) (hf : ∀ t, (f t).id = t.id) (store : List Task)
    (i : Nat) : findTask (store.map f) i = (findTask store i).map f := by
  unfold findTask
  rw [List.find?_map f store]
  have he : ((fun t : Task => t.id == i) ∘ f) = fun t : Task => t.id == i := by
    funext t
    simp [Function.comp, hf]
  rw [he]

lemma findTask_eq_some (store : List Task) (i : Nat) (t : Task)
    (h : findTask store i = some t) : t.id = i ∧ t ∈ store := by
  unfold findTask at h
  exact ⟨by simpa using List.find?_some h, List.mem_of_find?_eq_some h⟩

lemma findTask_mem_nodup (store : List Task) (t : Task)
    (hnd : (store.map fun u => u.id).Nodup) (ht : t ∈ store) :
    findTask store t.id = some t := by
  induction store with
  | nil => cases ht
  | cons h0 hs ih =>
    rw [List.map_cons, List.nodup_cons] at hnd
    rcases List.mem_cons.mp ht with rfl | hmem
    · unfold findTask
      rw [List.find?_cons_of_pos _ (by simp)]
    · have hne : ¬(h0.id == t.id) = true := by
        simp only [beq_iff_eq]
        intro he
        exact hnd.1 (he ▸ List.mem_map.mpr ⟨t, hmem, rfl⟩)
      unfold findTask
      rw [@List.find?_cons_of_neg Task (fun u => u.id == t.id) h0 hs hne]
      exact ih hnd.2 hmem

lemma nodup_id_unique (store : List Task) (hnd : (store.map fun u => u.id).Nodup)
    (a b : Task) (ha : a ∈ store) (hb : b ∈ store) (hab : a.id = b.id) : a = b :=
  List.inj_on_of_nodup_map hnd ha hb hab

lemma overdueTick_fst (send : Nat → SendOutcome) (ok : Nat → Bool) (now : Int)
    (store : List Task) : (overdueTick send ok now store).1 =
      store.map (tickStamp send ok now (queryCandidates store)) :=
  tickAux_fst send ok now (queryCandidates store) store

lemma overdueTick_snd (send : Nat → SendOutcome) (ok : Nat → Bool) (now : Int)
    (store : List Task) : (overdueTick send ok now store).2 =
      (queryCandidates store).filterMap (attemptOf send now) :=
  tickAux_snd send ok now (queryCandidates store) store

lemma attemptOf_eq_some (send : Nat → SendOutcome) (now : Int) (r : Task)
    (x : Nat × Nat × SendOutcome) : attemptOf send now r = some x ↔
      eligibleRow now r = true ∧ x = (r.id, r.userId, send r.id) := by
  unfold attemptOf
  split
  case isTrue h =>
    constructor
    · intro hx
      injection hx with hx
      exact ⟨h, hx.symm⟩
    · rintro ⟨-, rfl⟩
      rfl
  case isFalse h =>
    constructor
    · intro hx
      cases hx
    · rintro ⟨he, -⟩
      exact absurd he h

lemma mem_tick_events (send : Nat → SendOutcome) (ok : Nat → Bool) (now : Int)
    (store : List Task) (x : Nat × Nat × SendOutcome) :
    x ∈ (overdueTick send ok now store).2 ↔
      ∃ r ∈ queryCandidates store, eligibleRow now r = true ∧
        x = (r.id, r.userId, send r.id) := by
  rw [overdueTick_snd]
  simp only [List.mem_filterMap, attemptOf_eq_some]

lemma mem_queryCandidates (store : List Task) (r : Task) :
    r ∈ queryCandidates store ↔
      r ∈ store ∧ r.completed = false ∧ hasDueField r.due = true := by
  unfold queryCandidates
  simp [List.mem_filter, Bool.and_eq_true]

lemma eligibleRow_mono (now now2 : Int) (r : Task) (h : now ≤ now2)
    (he : eligibleRow now r = true) : eligibleRow now2 r = true := by
  unfold eligibleRow isEligible at he ⊢
  cases hd : r.due with
  | dnull => rw [hd] at he; cases he
  | malformed => rw [hd] at he; cases he
  | parsed d =>
    rw [hd] at he
    simp only [Bool.not_false, Bool.true_and, Bool.and_eq_true, decide_eq_true_eq] at he ⊢
    omega

lemma findTask_tick_keep (send : Nat → SendOutcome) (ok : Nat → Bool) (now : Int)
    (store : List Task) (i : Nat)
    (hns : send i ≠ SendOutcome.delivered ∨ ok i = false) :
    findTask (overdueTick send ok now store).1 i = findTask store i := by
  rw [overdueTick_fst,
    findTask_map _ (fun t => (tickStamp_fields send ok now (queryCandidates store) t).1)]
  cases hf : findTask store i with
  | none => rfl
  | some t =>
    have hid := (findTask_eq_some store i t hf).1
    show some (tickStamp send ok now (queryCandidates store) t) = some t
    rw [tickStamp_keep send ok now (queryCandidates store) t (by rw [hid]; exact hns)]

lemma retry_attempt (send send2 : Nat → SendOutcome) (ok ok2 : Nat → Bool)
    (now now2 : Int) (store : List Task) (i uid : Nat) (o : SendOutcome)
    (hmem : (i, uid, o) ∈ (overdueTick send ok now store).2)
    (hns : send i ≠ SendOutcome.delivered ∨ ok i = false)
    (hle : now ≤ now2) :
    (i, uid, send2 i) ∈ (overdueTick send2 ok2 now2 (overdueTick send ok now store).1).2 := by
  rcases (mem_tick_events send ok now store _).mp hmem with ⟨r, hrc, helig, hx⟩
  obtain ⟨hi, hu, -⟩ : i = r.id ∧ uid = r.userId ∧ o = send r.id := by
    simpa [Prod.ext_iff] using hx
  have hr_store := (mem_queryCandidates store r).mp hrc
  have hfr : tickStamp send ok now (queryCandidates store) r = r :=
    tickStamp_keep send ok now _ r (by rw [← hi]; exact hns)
  have hrmem1 : r ∈ (overdueTick send ok now store).1 := by
    rw [overdueTick_fst]
    exact List.mem_map.mpr ⟨r, hr_store.1, hfr⟩
  refine (mem_tick_events send2 ok2 now2 _ _).mpr ⟨r, ?_, ?_, ?_⟩
  · exact (mem_queryCandidates _ r).mpr ⟨hrmem1, hr_store.2.1, hr_store.2.2⟩
  · exact eligibleRow_mono now now2 r hle helig
  · rw [hi, hu]

lemma events_ids_sub (send : Nat → SendOutcome) (now : Int) (rows : List Task) (y : Nat)
    (hy : y ∈ (rows.filterMap (attemptOf send now)).map fun e => e.1) :
    y ∈ rows.map fun t => t.id := by
  rcases List.mem_map.mp hy with ⟨e, he, rfl⟩
  rcases List.mem_filterMap.mp he with ⟨r, hr, hsome⟩
  obtain ⟨-, rfl⟩ := (attemptOf_eq_some send now r e).mp hsome
  exact List.mem_map.mpr ⟨r, hr, rfl⟩

lemma events_ids_nodup (send : Nat → SendOutcome) (now : Int) (rows : List Task)
    (h : (rows.map fun t => t.id).Nodup) :
    ((rows.filterMap (attemptOf send now)).map fun e => e.1).Nodup := by
  induction rows with
  | nil => simp
  | cons r rs ih =>
    rw [List.map_cons, List.nodup_cons] at h
    cases ha : attemptOf send now r with
    | none => simpa [List.filterMap_cons, ha] using ih h.2
    | some e =>
      obtain ⟨-, rfl⟩ := (attemptOf_eq_some send now r e).mp ha
      simp only [List.filterMap_cons, ha, List.map_cons]
      rw [List.nodup_cons]
      exact ⟨fun hmem => h.1 (events_ids_sub send now rs _ hmem), ih h.2⟩

lemma candidates_ids_nodup (store : List Task)
    (h : (store.map fun t => t.id).Nodup) :
    ((queryCandidates store).map fun t => t.id).Nodup :=
  h.sublist (List.Sublist.map _ (List.filter_sublist store))

lemma eligibleRow_eq_true (now : Int) (r : Task) :
    eligibleRow now r = true ↔ ∃ d, r.due = DueDate.parsed d ∧ d < now ∧
      cooldown ≤ now - lastTs r.lastNotified := by
  unfold eligibleRow isEligible
  cases hd : r.due <;> simp

/-! ### The claims -/

/-- Claim C1: for a task that was already due when its lastNotifiedAt was
stamped at now1, and any later instant now2, the eligibility check returns
true exactly when now2 - now1 has reached the cooldown; the boundary
now2 - now1 = cooldown is included, and eligibility is monotone in now2. -/
theorem claim1_cooldown_iff_and_monotone (dueAt now1 now2 now3 : Int)
    (hdue : dueAt ≤ now1) (h12 : now1 < now2) (h23 : now2 ≤ now3) :
    (isEligible (DueDate.parsed dueAt) false (some now1) now2 cooldown = true ↔
      cooldown ≤ now2 - now1) ∧
    (isEligible (DueDate.parsed dueAt) false (some now1) now2 cooldown = true →
      isEligible (DueDate.parsed dueAt) false (some now1) now3 cooldown = true) := by
  simp only [isEligible, lastTs, cooldown, Bool.not_false, Bool.true_and,
    Bool.and_eq_true, decide_eq_true_eq]
  omega

/-- Witness for C1 at the inclusive boundary: a task due at 0 stamped at 5 is
eligible again at 25 = 5 + cooldown exactly. -/
theorem claim1_witness :
    isEligible (DueDate.parsed 0) false (some 5) 25 cooldown = true :=
  (claim1_cooldown_iff_and_monotone 0 5 25 25 (by decide) (by decide)
    (le_refl 25)).1.mpr (by decide)

/-- Claim C2 counterexample: a never-notified incomplete task exactly at its
due instant (dueAt = now = 100) satisfies dueAt ≤ now, yet the code's strict
`due_date < now` comparison judges it ineligible and a tick at that instant
dispatches nothing — the claim's "returns true" is false at this input. -/
theorem claim2_counterexample :
    (100 : Int) ≤ 100 ∧
    isEligible (DueDate.parsed 100) false none 100 cooldown = false ∧
    (overdueTick (fun _ => SendOutcome.delivered) (fun _ => true) 100
      [⟨1, 7, DueDate.parsed 100, false, none⟩]).2 = [] := by
  exact ⟨le_refl _, by decide, by decide⟩

/-- Claim C2 amended: a never-notified incomplete candidate task is eligible,
and is dispatched on that tick, provided its due instant is strictly before
now and now itself is at least the cooldown (absent lastNotifiedAt is stored
as the sentinel 0, so the cooldown check compares now against 0; real
unix-time clock values always satisfy this). -/
theorem claim2_amended_strict_due (dueAt now : Int) (hdue : dueAt < now)
    (hcd : cooldown ≤ now)
    (send : Nat → SendOutcome) (ok : Nat → Bool) (store : List Task) (r : Task)
    (hr : r ∈ queryCandidates store) (hdue2 : r.due = DueDate.parsed dueAt)
    (hl : r.lastNotified = none) :
    isEligible (DueDate.parsed dueAt) false none now cooldown = true ∧
    (r.id, r.userId, send r.id) ∈ (overdueTick send ok now store).2 := by
  have hcd' : (20 : Int) ≤ now := hcd
  have helig : isEligible (DueDate.parsed dueAt) false none now cooldown = true := by
    simp only [isEligible, lastTs, cooldown, Bool.not_false, Bool.true_and,
      Bool.and_eq_true, decide_eq_true_eq]
    omega
  refine ⟨helig, (mem_tick_events send ok now store _).mpr ⟨r, hr, ?_, rfl⟩⟩
  unfold eligibleRow
  rw [hdue2, hl]
  exact helig

/-- Witness for C2 amended: one overdue never-notified task is dispatched. -/
theorem claim2_witness :
    isEligible (DueDate.parsed 0) false none 100 cooldown = true ∧
    (1, 7, SendOutcome.delivered) ∈ (overdueTick (fun _ => SendOutcome.delivered)
      (fun _ => true) 100 [⟨1, 7, DueDate.parsed 0, false, none⟩]).2 :=
  claim2_amended_strict_due 0 100 (by decide) (by decide)
    (fun _ => SendOutcome.delivered) (fun _ => true)
    [⟨1, 7, DueDate.parsed 0, false, none⟩] ⟨1, 7, DueDate.parsed 0, false, none⟩
    (by decide) rfl rfl

/-- Claim C3: lastNotifiedAt is written only when the task's send returned
Delivered — if the send for task i did not deliver, the tick leaves task i's
row unchanged, and if the outcome was a transient failure (a generic
exception), an immediate re-tick at the same now attempts the send for that
task again. -/
theorem claim3_delivered_only_stamp_and_transient_retry
    (send send2 : Nat → SendOutcome) (ok ok2 : Nat → Bool) (now : Int)
    (store : List Task) (i uid : Nat)
    (hns : send i ≠ SendOutcome.delivered) :
    findTask (overdueTick send ok now store).1 i = findTask store i ∧
    ((i, uid, SendOutcome.otherError) ∈ (overdueTick send ok now store).2 →
      (i, uid, send2 i) ∈
        (overdueTick send2 ok2 now (overdueTick send ok now store).1).2) :=
  ⟨findTask_tick_keep send ok now store i (Or.inl hns), fun hmem =>
    retry_attempt send send2 ok ok2 now now store i uid _ hmem (Or.inl hns)
      (le_refl now)⟩

/-- Witness for C3: a transiently failing send leaves the task eligible and a
re-tick at the same instant delivers it. -/
theorem claim3_witness :
    (1, 7, SendOutcome.delivered) ∈
      (overdueTick (fun _ => SendOutcome.delivered) (fun _ => true) 100
        (overdueTick (fun _ => SendOutcome.otherError) (fun _ => true) 100
          [⟨1, 7, DueDate.parsed 0, false, none⟩]).1).2 :=
  (claim3_delivered_only_stamp_and_transient_retry
    (fun _ => SendOutcome.otherError) (fun _ => SendOutcome.delivered)
    (fun _ => true) (fun _ => true) 100
    [⟨1, 7, DueDate.parsed 0, false, none⟩] 1 7 (by decide)).2 (by decide)

/-- Claim C4 counterexample: the UPDATE is keyed on id only, so a task that is
already completed still gets its lastNotifiedAt stamped — contradicting
"updates lastNotifiedAt only if the task is still incomplete". -/
theorem claim4_counterexample :
    markNotified [⟨1, 7, DueDate.parsed 0, true, none⟩] 1 100 =
      [⟨1, 7, DueDate.parsed 0, true, some 100⟩] := by decide

/-- Claim C4 amended: markNotified stamps lastNotifiedAt of every stored row
whose id matches, regardless of the completion flag (a missing id is a no-op
and other rows are untouched), and returns no indication of whether anything
applied; in particular a task completed concurrently with its notification
does get stamped. -/
theorem claim4_amended_unconditional_update (store : List Task) (i : Nat)
    (ts : Int) (t : Task) (ht : t ∈ store) (hid : t.id = i)
    (hcomp : t.completed = true) :
    { t with lastNotified := some ts } ∈ markNotified store i ts := by
  refine List.mem_map.mpr ⟨t, ht, ?_⟩
  unfold stampOne
  rw [if_pos hid]

/-- Witness for C4 amended: the completed task of the counterexample store is
stamped by markNotified. -/
theorem claim4_witness :
    ({ id := 1, userId := 7, due := DueDate.parsed 0, completed := true,
        lastNotified := some 100 } : Task) ∈
      markNotified [⟨1, 7, DueDate.parsed 0, true, none⟩] 1 100 :=
  claim4_amended_unconditional_update [⟨1, 7, DueDate.parsed 0, true, none⟩] 1 100
    ⟨1, 7, DueDate.parsed 0, true, none⟩ (by decide) rfl rfl

/-- Claim C9: failure isolation is per task — the dispatch attempts of a pass
are a per-row function of the snapshot, so however one interposed task `bad`
behaves (unparseable due date, undeliverable recipient, failing send or
failing update), every other candidate is still evaluated on its own fields
and, if eligible, dispatched. -/
theorem claim9_per_task_failure_isolation (send : Nat → SendOutcome)
    (ok : Nat → Bool) (now : Int) (pre post : List Task) (bad : Task) :
    (overdueTick send ok now (pre ++ bad :: post)).2 =
      (queryCandidates pre).filterMap (attemptOf send now) ++
      (queryCandidates [bad]).filterMap (attemptOf send now) ++
      (queryCandidates post).filterMap (attemptOf send now) := by
  rw [overdueTick_snd]
  have hsplit : pre ++ bad :: post = pre ++ [bad] ++ post := by simp
  rw [hsplit]
  unfold queryCandidates
  rw [List.filter_append, List.filter_append, List.filterMap_append,
    List.filterMap_append]

/-- Claim C10: when the DM for task i was delivered but the store write
recording lastNotifiedAt failed (the exception is swallowed), the tick leaves
the task's row unchanged, so an immediate re-tick at the same now finds it
still eligible and attempts it again even though the previous notification
was delivered. -/
theorem claim10_update_failure_allows_resend (send1 send2 : Nat → SendOutcome)
    (ok1 ok2 : Nat → Bool) (now : Int) (store : List Task) (i uid : Nat)
    (hdel : (i, uid, SendOutcome.delivered) ∈ (overdueTick send1 ok1 now store).2)
    (hfail : ok1 i = false) :
    findTask (overdueTick send1 ok1 now store).1 i = findTask store i ∧
    (i, uid, send2 i) ∈
      (overdueTick send2 ok2 now (overdueTick send1 ok1 now store).1).2 :=
  ⟨findTask_tick_keep send1 ok1 now store i (Or.inr hfail),
    retry_attempt send1 send2 ok1 ok2 now now store i uid _ hdel (Or.inr hfail)
      (le_refl now)⟩

/-- Witness for C10: a delivered DM whose UPDATE fails leaves the row as it
was, and the next tick re-delivers to the same task. -/
theorem claim10_witness :
    findTask (overdueTick (fun _ => SendOutcome.delivered) (fun _ => false) 100
        [⟨1, 7, DueDate.parsed 0, false, none⟩]).1 1 =
      findTask [⟨1, 7, DueDate.parsed 0, false, none⟩] 1 ∧
    (1, 7, SendOutcome.delivered) ∈
      (overdueTick (fun _ => SendOutcome.delivered) (fun _ => true) 100
        (overdueTick (fun _ => SendOutcome.delivered) (fun _ => false) 100
          [⟨1, 7, DueDate.parsed 0, false, none⟩]).1).2 :=
  claim10_update_failure_allows_resend (fun _ => SendOutcome.delivered)
    (fun _ => SendOutcome.delivered) (fun _ => false) (fun _ => true) 100
    [⟨1, 7, DueDate.parsed 0, false, none⟩] 1 7 (by decide) rfl

/-- Claim C5: ticking twice at the same now is idempotent per delivered task —
a task that was delivered and stamped in the first tick has lastNotifiedAt =
now afterwards, so the second tick judges it ineligible (now - now = 0 is
below the cooldown) and emits no attempt for it. -/
theorem claim5_idempotent_same_now (send1 send2 : Nat → SendOutcome)
    (ok1 ok2 : Nat → Bool) (now : Int) (store : List Task) (i uid uid2 : Nat)
    (o : SendOutcome)
    (hnd : (store.map fun t => t.id).Nodup)
    (hdel : (i, uid, SendOutcome.delivered) ∈ (overdueTick send1 ok1 now store).2)
    (hok : ok1 i = true) :
    ((findTask (overdueTick send1 ok1 now store).1 i).map fun u => u.lastNotified) =
      some (some now) ∧
    (i, uid2, o) ∉ (overdueTick send2 ok2 now (overdueTick send1 ok1 now store).1).2 := by
  rcases (mem_tick_events send1 ok1 now store _).mp hdel with ⟨r, hrc, helig, hx⟩
  obtain ⟨hi, hu, ho⟩ : i = r.id ∧ uid = r.userId ∧ SendOutcome.delivered = send1 r.id := by
    simpa [Prod.ext_iff] using hx
  have hr_store := (mem_queryCandidates store r).mp hrc
  have hdeliv : rowDelivers send1 ok1 now r = true :=
    (rowDelivers_eq_true send1 ok1 now r).mpr
      ⟨helig, ho.symm, by rw [← hi]; exact hok⟩
  have hstamp : (tickStamp send1 ok1 now (queryCandidates store) r).lastNotified =
      some now :=
    tickStamp_stamps send1 ok1 now (queryCandidates store) r ⟨r, hrc, rfl, hdeliv⟩
  have hfind1 : findTask (overdueTick send1 ok1 now store).1 i =
      some (tickStamp send1 ok1 now (queryCandidates store) r) := by
    rw [overdueTick_fst,
      findTask_map _ (fun u => (tickStamp_fields send1 ok1 now _ u).1), hi,
      findTask_mem_nodup store r hnd hr_store.1]
    rfl
  refine ⟨by rw [hfind1, Option.map_some', hstamp], ?_⟩
  intro hmem2
  rcases (mem_tick_events send2 ok2 now _ _).mp hmem2 with ⟨r2, hrc2, helig2, hx2⟩
  obtain ⟨hi2, -, -⟩ : i = r2.id ∧ uid2 = r2.userId ∧ o = send2 r2.id := by
    simpa [Prod.ext_iff] using hx2
  have hr2_store := (mem_queryCandidates _ r2).mp hrc2
  rw [overdueTick_fst] at hr2_store
  rcases List.mem_map.mp hr2_store.1 with ⟨t0, ht0, hft0⟩
  have ht0id : t0.id = r.id := by
    have hpres := (tickStamp_fields send1 ok1 now (queryCandidates store) t0).1
    rw [hft0] at hpres
    omega
  have ht0r : t0 = r := nodup_id_unique store hnd t0 r ht0 hr_store.1 ht0id
  have hlast2 : r2.lastNotified = some now := by
    rw [← hft0, ht0r]
    exact hstamp
  rcases (eligibleRow_eq_true now r2).mp helig2 with ⟨d, -, -, hcool⟩
  rw [hlast2] at hcool
  have hcool' : (20 : Int) ≤ now - now := hcool
  omega

/-- Witness for C5: after a delivered-and-stamped first tick, the second tick
at the same instant emits no attempt for the task. -/
theorem claim5_witness :
    ((findTask (overdueTick (fun _ => SendOutcome.delivered) (fun _ => true) 100
        [⟨1, 7, DueDate.parsed 0, false, none⟩]).1 1).map fun u => u.lastNotified) =
      some (some 100) ∧
    (1, 7, SendOutcome.delivered) ∉
      (overdueTick (fun _ => SendOutcome.delivered) (fun _ => true) 100
        (overdueTick (fun _ => SendOutcome.delivered) (fun _ => true) 100
          [⟨1, 7, DueDate.parsed 0, false, none⟩]).1).2 :=
  claim5_idempotent_same_now (fun _ => SendOutcome.delivered)
    (fun _ => SendOutcome.delivered) (fun _ => true) (fun _ => true) 100
    [⟨1, 7, DueDate.parsed 0, false, none⟩] 1 7 7 SendOutcome.delivered
    (by decide) (by decide) rfl

/-- Claim C6 counterexample: the hourly pending-task loop reminds users about
every incomplete task, due date or not — a task with absent dueAt is included
in a delivered hourly reminder, contradicting "no reminder is ever sent for
that task, by any reminder loop". -/
theorem claim6_counterexample :
    hourlyReminder (fun _ => true) (fun _ => true)
      [⟨1, 7, DueDate.dnull, false, none⟩] = [1] := by decide

/-- Claim C6 amended: a task with absent dueAt is never dispatched by the
overdue reminder loop (its query filters out NULL due dates), and the overdue
tick preserves the absence, so this holds across every tick; the hourly
pending-task loop, however, does include such tasks in its reminder DMs. -/
theorem claim6_amended_overdue_only (send : Nat → SendOutcome) (ok : Nat → Bool)
    (now : Int) (store : List Task) (i uid : Nat) (o : SendOutcome) (r2 : Task)
    (h : ∀ r ∈ store, r.id = i → r.due = DueDate.dnull) :
    (i, uid, o) ∉ (overdueTick send ok now store).2 ∧
    (r2 ∈ (overdueTick send ok now store).1 → r2.id = i →
      r2.due = DueDate.dnull) := by
  constructor
  · intro hmem
    rcases (mem_tick_events send ok now store _).mp hmem with ⟨r, hrc, helig, hx⟩
    obtain ⟨hi, -, -⟩ : i = r.id ∧ uid = r.userId ∧ o = send r.id := by
      simpa [Prod.ext_iff] using hx
    have hr_store := (mem_queryCandidates store r).mp hrc
    rcases (eligibleRow_eq_true now r).mp helig with ⟨d, hdue, -, -⟩
    rw [h r hr_store.1 hi.symm] at hdue
    cases hdue
  · intro hmem hid
    rw [overdueTick_fst] at hmem
    rcases List.mem_map.mp hmem with ⟨t0, ht0, hft0⟩
    have hpres := tickStamp_fields send ok now (queryCandidates store) t0
    have ht0id : t0.id = i := by
      have h1 := hpres.1
      rw [hft0] at h1
      omega
    rw [← hft0, hpres.2.2.1]
    exact h t0 ht0 ht0id

/-- Witness for C6 amended: a store whose only task has no due date produces
no overdue dispatch. -/
theorem claim6_witness :
    (1, 7, SendOutcome.delivered) ∉
      (overdueTick (fun _ => SendOutcome.delivered) (fun _ => true) 100
        [⟨1, 7, DueDate.dnull, false, none⟩]).2 :=
  (claim6_amended_overdue_only (fun _ => SendOutcome.delivered) (fun _ => true)
    100 [⟨1, 7, DueDate.dnull, false, none⟩] 1 7 SendOutcome.delivered
    ⟨1, 7, DueDate.dnull, false, none⟩ (by decide)).1

/-- Claim C7 counterexample: two overdue tasks of the same recipient, whose
DMs both raise discord.Forbidden — after the first attempt returns
RecipientUnreachable the engine still attempts the same recipient again in
the same pass, contradicting "makes no further send attempt to that same
recipient during that pass". -/
theorem claim7_counterexample :
    (overdueTick (fun _ => SendOutcome.forbidden) (fun _ => true) 100
      [⟨1, 7, DueDate.parsed 0, false, none⟩,
       ⟨2, 7, DueDate.parsed 0, false, none⟩]).2 =
      [(1, 7, SendOutcome.forbidden), (2, 7, SendOutcome.forbidden)] := by decide

/-- Claim C7 amended: within one pass each task is attempted at most once (the
attempt ids of a pass are duplicate-free), so an unreachable outcome is never
retried for that task in the same pass; the engine does not suppress the
recipient — other tasks of the same recipient may still be attempted in the
same pass — and any later tick (same or greater now) attempts the task
again. -/
theorem claim7_amended_per_task_single_attempt (send send2 : Nat → SendOutcome)
    (ok ok2 : Nat → Bool) (now now2 : Int) (store : List Task) (i uid : Nat)
    (hnd : (store.map fun t => t.id).Nodup)
    (hunr : (i, uid, SendOutcome.forbidden) ∈ (overdueTick send ok now store).2)
    (hle : now ≤ now2) :
    ((overdueTick send ok now store).2.map fun e => e.1).Nodup ∧
    (i, uid, send2 i) ∈
      (overdueTick send2 ok2 now2 (overdueTick send ok now store).1).2 := by
  constructor
  · rw [overdueTick_snd]
    exact events_ids_nodup send now _ (candidates_ids_nodup store hnd)
  · have hsend : send i = SendOutcome.forbidden := by
      rcases (mem_tick_events send ok now store _).mp hunr with ⟨r, -, -, hx⟩
      obtain ⟨hi, -, ho⟩ : i = r.id ∧ uid = r.userId ∧
          SendOutcome.forbidden = send r.id := by
        simpa [Prod.ext_iff] using hx
      rw [hi]
      exact ho.symm
    exact retry_attempt send send2 ok ok2 now now2 store i uid _ hunr
      (Or.inl (by rw [hsend]; intro hc; cases hc)) hle

/-- Witness for C7 amended: with two tasks of one recipient both unreachable,
the pass has duplicate-free attempt ids and the next tick re-attempts task 1. -/
theorem claim7_witness :
    ((overdueTick (fun _ => SendOutcome.forbidden) (fun _ => true) 100
      [⟨1, 7, DueDate.parsed 0, false, none⟩,
       ⟨2, 7, DueDate.parsed 0, false, none⟩]).2.map fun e => e.1).Nodup ∧
    (1, 7, SendOutcome.delivered) ∈
      (overdueTick (fun _ => SendOutcome.delivered) (fun _ => true) 120
        (overdueTick (fun _ => SendOutcome.forbidden) (fun _ => true) 100
          [⟨1, 7, DueDate.parsed 0, false, none⟩,
           ⟨2, 7, DueDate.parsed 0, false, none⟩]).1).2 :=
  claim7_amended_per_task_single_attempt (fun _ => SendOutcome.forbidden)
    (fun _ => SendOutcome.delivered) (fun _ => true) (fun _ => true) 100 120
    [⟨1, 7, DueDate.parsed 0, false, none⟩, ⟨2, 7, DueDate.parsed 0, false, none⟩]
    1 7 (by decide) (by decide) (by decide)

/-- Claim C8: one overdue tick never rolls lastNotifiedAt back — the
0-defaulted reading is non-decreasing — and when the value changes it is set
to the tick's own timestamp now, the previous value lies at least a full
cooldown before now, and a Delivered dispatch for that task is recorded in
that same tick. -/
theorem claim8_lastNotified_monotone_invariant (send : Nat → SendOutcome)
    (ok : Nat → Bool) (now : Int) (store : List Task) (i : Nat) (t t' : Task)
    (hnd : (store.map fun u => u.id).Nodup)
    (h1 : findTask store i = some t)
    (h2 : findTask (overdueTick send ok now store).1 i = some t') :
    lastTs t.lastNotified ≤ lastTs t'.lastNotified ∧
    (t'.lastNotified = t.lastNotified ∨
      (t'.lastNotified = some now ∧ lastTs t.lastNotified + cooldown ≤ now ∧
        (i, t.userId, SendOutcome.delivered) ∈ (overdueTick send ok now store).2)) := by
  obtain ⟨hid, hmem⟩ := findTask_eq_some store i t h1
  have h2' : findTask (overdueTick send ok now store).1 i =
      some (tickStamp send ok now (queryCandidates store) t) := by
    rw [overdueTick_fst,
      findTask_map _ (fun u => (tickStamp_fields send ok now _ u).1), h1]
    rfl
  rw [h2'] at h2
  injection h2 with h2
  subst h2
  rcases tickStamp_cases send ok now (queryCandidates store) t with
    hsame | ⟨hnow, r, hrmem, hrid, hrdel⟩
  · exact ⟨by rw [hsame], Or.inl hsame⟩
  · have hr_store := (mem_queryCandidates store r).mp hrmem
    have hrt : r = t := nodup_id_unique store hnd r t hr_store.1 hmem hrid
    subst hrt
    obtain ⟨helig, hsend, -⟩ := (rowDelivers_eq_true send ok now r).mp hrdel
    rcases (eligibleRow_eq_true now r).mp helig with ⟨d, -, -, hcool⟩
    have hcool20 : (20 : Int) ≤ now - lastTs r.lastNotified := hcool
    have hev : (i, r.userId, SendOutcome.delivered) ∈
        (overdueTick send ok now store).2 := by
      refine (mem_tick_events send ok now store _).mpr ⟨r, hrmem, helig, ?_⟩
      rw [hsend, hid]
    refine ⟨?_, Or.inr ⟨hnow, ?_, hev⟩⟩
    · rw [hnow]
      show lastTs r.lastNotified ≤ now
      omega
    · show lastTs r.lastNotified + (20 : Int) ≤ now
      omega

/-- Witness for C8: a task last notified at 30 is stamped to 100 by a
delivered tick at 100, with the dispatch recorded. -/
theorem claim8_witness :
    lastTs (some 30) ≤ lastTs (some 100) ∧
    ((some 100 : Option Int) = some 30 ∨
      ((some 100 : Option Int) = some 100 ∧ lastTs (some 30) + cooldown ≤ 100 ∧
        (1, 7, SendOutcome.delivered) ∈
          (overdueTick (fun _ => SendOutcome.delivered) (fun _ => true) 100
            [⟨1, 7, DueDate.parsed 0, false, some 30⟩]).2)) :=
  claim8_lastNotified_monotone_invariant (fun _ => SendOutcome.delivered)
    (fun _ => true) 100 [⟨1, 7, DueDate.parsed 0, false, some 30⟩] 1
    ⟨1, 7, DueDate.parsed 0, false, some 30⟩
    ⟨1, 7, DueDate.parsed 0, false, some 100⟩ (by decide) rfl (by decide)

end CrewTaskBot
